import Mathlib

/-!
Shallow embedding of the OMRChecker marking-scheme evaluation engine
(src/src/evaluation.py) and proofs about its behaviour.

Modelling conventions:
- Python floats / Fractions are modelled as rationals.
- Python dicts are modelled as association lists in insertion order;
  dict assignment is `assocSet` (update in place, else append) and dict
  access is `assocGet`.
- Python sets are modelled as lists used only through membership
  (subset, disjointness and extensional-equality tests), which matches
  every use the source makes of them.
- Python exceptions become the `EvalError` sum; the distinct error sites
  of evaluation.py each get their own constructor.
- A Python value whose runtime type matters (the parsed marking entries,
  which the source inspects with type(...) == list) is modelled by the
  inductive `PyMark` with one constructor per runtime type that can
  actually reach that inspection: a number, a genuine Python list, or a
  lazy map object (what map(parse_float_or_fraction, xs) returns).
-/

namespace OMRChecker

/-- Modelled from the spec: the reserved default / catch-all section key,
imported by evaluation.py from src/schemas/evaluation_schema.py, a file that
is not part of the sources under review.  The exact literal is irrelevant to
every property proved below; only its role as a reserved key matters. -/
def DEFAULT_SECTION_KEY : String := "DEFAULT"

/-- Modelled from the spec: the reserved bonus-section key marker, imported
by evaluation.py from src/schemas/evaluation_schema.py.  The warning text in
evaluation.py itself names the literal BONUS_. -/
def BONUS_SECTION_PREFIX : String := "BONUS_"

/-- The three verdict kinds (correct / incorrect / unmarked). -/
inductive Verdict
  | correct
  | incorrect
  | unmarked
deriving DecidableEq, Repr

/-- Modelled from the spec: MARKING_VERDICT_TYPES from
src/schemas/evaluation_schema.py, the iteration order used by
parse_scheme_marking and update_streaks_for_verdict. -/
def MARKING_VERDICT_TYPES : List Verdict := [.correct, .incorrect, .unmarked]

/-- A scalar as it appears inside a raw marking list: a JSON number or a
numeric string (possibly of the form a/b). -/
inductive RawScalar
  | num (x : ℚ)
  | str (s : String)
deriving DecidableEq, Repr

/-- A raw per-verdict marking value as read from the evaluation JSON. -/
inductive RawMark
  | num (x : ℚ)
  | str (s : String)
  | list (xs : List RawScalar)
deriving DecidableEq, Repr

/-- A parsed per-verdict marking value, tagged by its Python runtime type.
parse_scheme_marking stores a float for numeric or string input, and for a
list input it stores the value of map(parse_float_or_fraction, xs): a lazy
map object, not a list.  The pylist constructor models a genuine Python
list, the type match_answer tests for; the parser never produces it. -/
inductive PyMark
  | num (x : ℚ)
  | pylist (xs : List ℚ)
  | mapObj (xs : List RawScalar)
deriving DecidableEq, Repr

/-- The raw marking block of one section as read from the evaluation
JSON: one raw value per verdict kind (the schema guarantees all three
keys are present). -/
structure RawMarking where
  correct : RawMark
  incorrect : RawMark
  unmarked : RawMark
deriving DecidableEq, Repr

/-- The parsed marking of one section: one entry per verdict kind. -/
structure Marking where
  correct : PyMark
  incorrect : PyMark
  unmarked : PyMark
deriving DecidableEq, Repr

def Marking.get (m : Marking) : Verdict → PyMark
  | .correct => m.correct
  | .incorrect => m.incorrect
  | .unmarked => m.unmarked

/-- The per-section streak counters, one per verdict kind. -/
structure Streaks where
  correct : ℕ
  incorrect : ℕ
  unmarked : ℕ
deriving DecidableEq, Repr

def Streaks.get (s : Streaks) : Verdict → ℕ
  | .correct => s.correct
  | .incorrect => s.incorrect
  | .unmarked => s.unmarked

/-- A non-fatal logger.warning emitted during rule parsing.  The source
formats the value with round(result, 2) purely for display; the warning
here carries the exact value. -/
inductive LogWarning
  | positiveIncorrectMarks (section_key : String) (value : ℚ)
deriving DecidableEq, Repr

/-- The distinct raise sites / runtime faults of evaluation.py. -/
inductive EvalError
  | unequalLengths
  | sectionOverlap (section_key : String)
  | missingMarkingScheme
  | missingAnswerKey
  | missingResponse
  | rangeDefinition (question_string : String)
  | questionOverlap (question_string : String) (questions : List String) (key : String)
  | indexError
  | keyError (k : String)
  | nameError
  | typeError
  | valueError (s : String)
  | schemaError
  | internal
deriving DecidableEq, Repr

/-! ## Numeric string parsing: parse_float_or_fraction -/

def natOfDigits (l : List Char) : ℕ :=
  l.foldl (fun a c => a * 10 + (c.toNat - 48)) 0

/-- Parse an optionally signed run of decimal digits, as int(s) does for
canonical integer strings. -/
def parseInt (cs : List Char) : Except EvalError ℤ :=
  match cs with
  | '-' :: rest =>
      if rest ≠ [] ∧ rest.all Char.isDigit then .ok (-(natOfDigits rest : ℤ))
      else .error (.valueError (String.mk cs))
  | _ =>
      if cs ≠ [] ∧ cs.all Char.isDigit then .ok (natOfDigits cs : ℤ)
      else .error (.valueError (String.mk cs))

/-- Parse a decimal literal (sign, digits, optional point and digits), as
float(s) does on the literals this project uses. -/
def parseDecimal (s : String) : Except EvalError ℚ :=
  let step : List Char → Except EvalError ℚ := fun cs =>
    match cs.span (fun c => !(c == '.')) with
    | (intPart, []) =>
        if intPart ≠ [] ∧ intPart.all Char.isDigit then .ok ((natOfDigits intPart : ℚ))
        else .error (.valueError s)
    | (intPart, _dot :: fracPart) =>
        if (intPart ≠ [] ∨ fracPart ≠ []) ∧ intPart.all Char.isDigit ∧
            fracPart.all Char.isDigit ∧ !fracPart.contains '.' then
          .ok ((natOfDigits intPart : ℚ) + (natOfDigits fracPart : ℚ) / (10 : ℚ) ^ fracPart.length)
        else .error (.valueError s)
  match s.toList with
  | '-' :: rest => (step rest).map Neg.neg
  | cs => step cs

/-- Split at the first slash, as the source relies on for a/b strings. -/
def splitAtSlash (cs : List Char) : List Char × List Char :=
  match cs.span (fun c => !(c == '/')) with
  | (a, _slash :: b) => (a, b)
  | (a, []) => (a, [])

/-- float(Fraction(s)) for a string containing a slash: numerator and
denominator are parsed as integers; a zero denominator raises. -/
def parseFraction (s : String) : Except EvalError ℚ :=
  let (a, b) := splitAtSlash s.toList
  match parseInt a, parseInt b with
  | .ok n, .ok d =>
      if d = 0 then .error (.valueError s) else .ok ((n : ℚ) / (d : ℚ))
  | .error e, _ => .error e
  | _, .error e => .error e

/-- parse_float_or_fraction from evaluation.py: strings containing a slash
go through Fraction, everything else through float. -/
def parse_float_or_fraction (s : String) : Except EvalError ℚ :=
  if s.toList.any (fun c => c == '/') then parseFraction s else parseDecimal s

/-! ## Range parsing: parse_question_string and parse_questions -/

/-- The character class of the first regex group: anything that is neither
a dot nor a digit. -/
def isQuestionPrefixChar (c : Char) : Bool := !c.isDigit && !(c == '.')

/-- One attempt of the regex at a fixed start position.  The pattern has
three groups: a nonempty run of non-dot non-digit characters, a nonempty
digit run, two or three dots, and a final nonempty digit run.  Since the
three character classes are pairwise disjoint, the greedy match is the
span decomposition below; the dot counter admits 2 or 3 dots followed by a
digit, exactly the strings the Python pattern accepts at this position. -/
def regexMatchAt (l : List Char) : Option (List Char × List Char × List Char) :=
  let a := l.takeWhile isQuestionPrefixChar
  let r1 := l.dropWhile isQuestionPrefixChar
  if a.isEmpty then none
  else
    let d1 := r1.takeWhile Char.isDigit
    let r2 := r1.dropWhile Char.isDigit
    if d1.isEmpty then none
    else
      let dots := r2.takeWhile (fun c => c == '.')
      let r3 := r2.dropWhile (fun c => c == '.')
      if dots.length < 2 ∨ dots.length > 3 then none
      else
        let d2 := r3.takeWhile Char.isDigit
        if d2.isEmpty then none else some (a, d1, d2)

/-- re.findall scans left to right; the first match is the match at the
leftmost position admitting one. -/
def regexFindFirst : List Char → Option (List Char × List Char × List Char)
  | [] => none
  | c :: t =>
      match regexMatchAt (c :: t) with
      | some r => some r
      | none => regexFindFirst t

/-- parse_question_string from evaluation.py.  A token containing a dot is
matched against the range regex (findall with index 0, so no match raises
IndexError); a range with start >= end raises; otherwise the range is
expanded inclusively.  A token without a dot is returned as a singleton. -/
def parse_question_string (question_string : String) : Except EvalError (List String) :=
  let cs := question_string.toList
  if cs.any (fun c => c == '.') then
    match regexFindFirst cs with
    | none => .error .indexError
    | some ( question_prefix, startDigits, endDigits) =>
        let start := natOfDigits startDigits
        let stop := natOfDigits endDigits
        if start ≥ stop then .error (.rangeDefinition question_string)
        else
          .ok ((List.range' start (stop + 1 - start)).map
            (fun n => String.mk question_prefix ++ toString n))
  else .ok [question_string]

/-- Python membership test on a list of strings. -/
def memB (x : String) : List String → Bool
  | [] => false
  | y :: t => x == y || memB x t

/-- set.isdisjoint, on the membership model of sets. -/
def disjointB (a b : List String) : Bool := a.all fun x => !(memB x b)

/-- set.issubset: a is a subset of b. -/
def subsetB (a b : List String) : Bool := a.all fun x => memB x b

/-- Extensional equality of two sets given as lists. -/
def setEqB (a b : List String) : Bool := subsetB a b && subsetB b a

/-- The loop body of parse_questions.  NOTE, faithful to the source: the
accumulator questions_set is threaded through every iteration unchanged,
because the source never adds current_set to it; the third argument below
therefore stays at its initial value. -/
def parse_questions_go (key : String) (full : List String) :
    List String → List String → List String → Except EvalError (List String)
  | [], parsed, _questions_set => .ok parsed
  | question_string :: rest, parsed, questions_set =>
      match parse_question_string question_string with
      | .error e => .error e
      | .ok questions_array =>
          if !(disjointB questions_set questions_array) then
            .error (.questionOverlap question_string full key)
          else
            parse_questions_go key full rest (parsed ++ questions_array) questions_set

/-- parse_questions from evaluation.py. -/
def parse_questions (key : String) (questions : List String) : Except EvalError (List String) :=
  parse_questions_go key questions questions [] []

/-! ## SectionMarkingScheme -/

/-- One parsed section scheme: the instance fields set by
SectionMarkingScheme.__init__.  questions is none exactly for the
default section. -/
structure SectionMarkingScheme where
  empty_val : String
  section_key : String
  streaks : Streaks
  questions : Option (List String)
  marking : Marking
deriving DecidableEq, Repr

/-- One verdict of parse_scheme_marking.  A string is parsed to a float,
and a strictly positive value for the incorrect verdict of a section
without the bonus marker triggers a non-fatal warning; a list becomes the
lazy map object map(parse_float_or_fraction, xs) without being forced; a
number is stored unchanged. -/
def parseOneMark (section_key : String) (verdict_type : Verdict) (raw : RawMark) :
    Except EvalError (PyMark × List LogWarning) :=
  match raw with
  | .str s =>
      match parse_float_or_fraction s with
      | .error e => .error e
      | .ok result =>
          if result > 0 ∧ verdict_type = .incorrect ∧
              section_key.startsWith BONUS_SECTION_PREFIX = false then
            .ok (.num result, [.positiveIncorrectMarks section_key result])
          else .ok (.num result, [])
  | .list xs => .ok (.mapObj xs, [])
  | .num x => .ok (.num x, [])

/-- parse_scheme_marking from evaluation.py, iterating the verdict kinds
in the order of MARKING_VERDICT_TYPES and collecting warnings. -/
def parse_scheme_marking (section_key : String) (marking : RawMarking) :
    Except EvalError (Marking × List LogWarning) :=
  match parseOneMark section_key .correct marking.correct with
  | .error e => .error e
  | .ok (c, w1) =>
      match parseOneMark section_key .incorrect marking.incorrect with
      | .error e => .error e
      | .ok (i, w2) =>
          match parseOneMark section_key .unmarked marking.unmarked with
          | .error e => .error e
          | .ok (u, w3) => .ok (⟨c, i, u⟩, w1 ++ w2 ++ w3)

/-- The raw JSON value of one marking-scheme entry.  The source decides
how to read it by the section key alone: the reserved default key uses
the shorthand (the value is the marking block itself), every other key
expects the two subkeys questions and marking.  A shape that does not
match its key raises a KeyError in the source; that is schemaError
here. -/
inductive RawSection
  | default (marking : RawMarking)
  | explicit (questions : List String) (marking : RawMarking)
deriving DecidableEq, Repr

/-- SectionMarkingScheme.__init__ from evaluation.py.  Streak counters
start at zero; the default section gets questions = none; every other
section parses its question tokens first, then its marking block. -/
def SectionMarkingScheme.init (section_key : String) (section_scheme : RawSection)
    (empty_val : String) : Except EvalError (SectionMarkingScheme × List LogWarning) :=
  if section_key = DEFAULT_SECTION_KEY then
    match section_scheme with
    | .default marking =>
        match parse_scheme_marking section_key marking with
        | .error e => .error e
        | .ok (m, ws) => .ok (⟨empty_val, section_key, ⟨0, 0, 0⟩, none, m⟩, ws)
    | .explicit _ _ => .error .schemaError
  else
    match section_scheme with
    | .explicit qs marking =>
        match parse_questions section_key qs with
        | .error e => .error e
        | .ok questions =>
            match parse_scheme_marking section_key marking with
            | .error e => .error e
            | .ok (m, ws) => .ok (⟨empty_val, section_key, ⟨0, 0, 0⟩, some questions, m⟩, ws)
    | .default _ => .error .schemaError

/-- get_question_verdict from evaluation.py: the sentinel comparison comes
first, then the exact comparison with the correct answer. -/
def get_question_verdict (empty_val marked_answer correct_answer : String) : Verdict :=
  if marked_answer = empty_val then .unmarked
  else if marked_answer = correct_answer then .correct
  else .incorrect

/-- update_streaks_for_verdict from evaluation.py: the matched verdict
counter becomes its previous value plus one, the other two are reset. -/
def update_streaks_for_verdict (streaks : Streaks) (question_verdict : Verdict) : Streaks :=
  let current_streak := streaks.get question_verdict
  ⟨if question_verdict = .correct then current_streak + 1 else 0,
   if question_verdict = .incorrect then current_streak + 1 else 0,
   if question_verdict = .unmarked then current_streak + 1 else 0⟩

/-- match_answer from evaluation.py: resolve the verdict, peek the streak,
resolve the delta (with the schedule lookup guarded by a runtime list-type
test), then commit the streak update.  Returns delta, verdict and the
updated scheme.  The delta keeps its Python runtime type because the
parsed marking may be a map object, which the type test lets through
unchanged.  The pylist index is total here via getD; the source would
raise IndexError on an empty list, a case no caller can produce. -/
def match_answer (s : SectionMarkingScheme) (marked_answer correct_answer : String) :
    PyMark × Verdict × SectionMarkingScheme :=
  let question_verdict := get_question_verdict s.empty_val marked_answer correct_answer
  let current_streak := s.streaks.get question_verdict
  let marking := s.marking.get question_verdict
  let delta :=
    match marking with
    | .pylist xs => PyMark.num (xs.getD (min current_streak (xs.length - 1)) 0)
    | m => m
  (delta, question_verdict,
    { s with streaks := update_streaks_for_verdict s.streaks question_verdict })

/-! ## EvaluationConfig -/

/-- One recorded row of the explanation trace.  The source renders every
cell to a string with display rounding; the row here keeps the underlying
data (that rendering is out of scope).  The streak cell is the
post-commit counter of the verdict, as in the source. -/
structure ExplRow where
  question : String
  marked_answer : String
  correct_answer : String
  verdict : Verdict
  delta : ℚ
  next_score : ℚ
  section_key : String
  section_streak : ℕ
deriving DecidableEq, Repr

/-- The state of an EvaluationConfig after construction.  The marking
scheme is an association list in dict insertion order; the explanation
table is the list of rows added so far (empty when explanation is off). -/
structure EvaluationConfig where
  should_explain_scoring : Bool
  questions_in_order : List String
  answers_in_order : List String
  marking_scheme : List (String × SectionMarkingScheme)
  explanation_table : List ExplRow
deriving DecidableEq, Repr

/-- Python dict access. -/
def assocGet (k : String) : List (String × α) → Option α
  | [] => none
  | (k', v) :: t => if k = k' then some v else assocGet k t

/-- Python dict assignment: overwrite in place, else append. -/
def assocSet (k : String) (v : α) : List (String × α) → List (String × α)
  | [] => [(k, v)]
  | (k', v') :: t => if k' = k then (k, v) :: t else (k', v') :: assocSet k v t

/-- The section-building loop of EvaluationConfig.__init__, in dict
iteration order, collecting each section scheme and its warnings.  The
source dict cannot repeat keys; the input list here plays that dict. -/
def buildSections (empty_val : String) :
    List (String × RawSection) →
    Except EvalError (List (String × SectionMarkingScheme) × List LogWarning)
  | [] => .ok ([], [])
  | (section_key, raw) :: rest =>
      match SectionMarkingScheme.init section_key raw empty_val with
      | .error e => .error e
      | .ok (s, ws) =>
          match buildSections empty_val rest with
          | .error e => .error e
          | .ok (others, ws') => .ok ((section_key, s) :: others, ws ++ ws')

/-- EvaluationConfig.__init__ from evaluation.py, for the inline answer-key
source (the csv branch does file input and is outside this model).  The
answer-key question tokens go through parse_questions; the marking scheme
is built section by section.  prepare_explanation_table only creates the
empty trace. -/
def EvaluationConfig.init (questions_in_order_tokens : List String)
    (answers_in_order : List String) (marking_scheme : List (String × RawSection))
    (global_empty_val : String) (should_explain_scoring : Bool) :
    Except EvalError (EvaluationConfig × List LogWarning) :=
  match parse_questions "questions_in_order" questions_in_order_tokens with
  | .error e => .error e
  | .ok questions_in_order =>
      match buildSections global_empty_val marking_scheme with
      | .error e => .error e
      | .ok (sections, ws) =>
          .ok (⟨should_explain_scoring, questions_in_order, answers_in_order, sections, []⟩, ws)

/-- The non-default section fold of validate_all: skip the default key,
require each remaining section to be disjoint from the questions collected
so far, and accumulate the union.  A non-default section without a
question list would make the source call set(None), a TypeError.  The
union of two sets is modelled by list append (only membership is ever
used). -/
def sectionQuestionsFold :
    List (String × SectionMarkingScheme) → List String → Except EvalError (List String)
  | [], section_questions => .ok section_questions
  | (section_key, section_scheme) :: rest, section_questions =>
      if section_key = DEFAULT_SECTION_KEY then sectionQuestionsFold rest section_questions
      else
        match section_scheme.questions with
        | none => .error .typeError
        | some current_set =>
            if !(disjointB section_questions current_set) then
              .error (.sectionOverlap section_key)
            else sectionQuestionsFold rest (section_questions ++ current_set)

/-- validate_all from evaluation.py, in source order: the length check,
the per-section disjointness fold, the two directional coverage checks
between answer key and section questions, and finally the response check.
The response check is the literal source condition: it raises whenever
the answer-key question set is a (not necessarily strict) superset of the
response question set. -/
def validate_all (cfg : EvaluationConfig) (omr_response : List (String × String)) :
    Except EvalError Unit :=
  if cfg.questions_in_order.length ≠ cfg.answers_in_order.length then
    .error .unequalLengths
  else
    match sectionQuestionsFold cfg.marking_scheme [] with
    | .error e => .error e
    | .ok section_questions =>
        let answer_key_questions := cfg.questions_in_order
        if !(setEqB answer_key_questions section_questions) then
          if subsetB section_questions answer_key_questions then
            .error .missingMarkingScheme
          else .error .missingAnswerKey
        else
          let omr_response_questions := omr_response.map Prod.fst
          if subsetB omr_response_questions answer_key_questions then
            .error .missingResponse
          else .ok ()

/-! ## evaluate_concatenated_response -/

/-- The QUESTION_WISE_SCHEMES dict of evaluate_concatenated_response,
mapping each question of a non-default section to that section.  Because
the section objects are shared mutable state, the map stores the section
key and the per-question scheme is fetched from the current scheme list
at use time; that reproduces the aliasing of the source objects.  The
question list of a non-default section is present whenever validation has
succeeded; getD [] covers the unreachable alternative. -/
def buildQws : List (String × SectionMarkingScheme) → List (String × String) → List (String × String)
  | [], qws => qws
  | (section_key, section_scheme) :: rest, qws =>
      if section_key = DEFAULT_SECTION_KEY then buildQws rest qws
      else
        buildQws rest
          ((section_scheme.questions.getD []).foldl (fun m q => assocSet q section_key m) qws)

/-- The scoring loop of evaluate_concatenated_response over the zipped
answer key, threading the running score, the explanation rows and the
current scheme states.  Source order per question: fetch the marked
answer (KeyError if the response lacks the key), evaluate the fallback
argument default_marking_scheme (NameError when no default section ever
bound it — Python evaluates the .get fallback unconditionally), look up
the applicable scheme, run match_answer, optionally record an explanation
row (whose score cell folds in the delta, a TypeError when the delta is
not a number), then fold the delta into the score (same TypeError). -/
def scoreLoop (omr_response : List (String × String)) (qws : List (String × String))
    (defaultKey : Option String) (should_explain : Bool) :
    List (String × String) → ℚ → List ExplRow → List (String × SectionMarkingScheme) →
    Except EvalError (ℚ × List ExplRow × List (String × SectionMarkingScheme))
  | [], score, rows, schemes => .ok (score, rows, schemes)
  | (question, correct_answer) :: rest, score, rows, schemes =>
      match assocGet question omr_response with
      | none => .error (.keyError question)
      | some marked_answer =>
          match defaultKey with
          | none => .error .nameError
          | some dk =>
              let k := (assocGet question qws).getD dk
              match assocGet k schemes with
              | none => .error .internal
              | some scheme =>
                  match match_answer scheme marked_answer correct_answer with
                  | (delta, question_verdict, updated) =>
                      match
                        (if should_explain then
                          match delta with
                          | .num d =>
                              Except.ok (rows ++ [⟨question, marked_answer, correct_answer,
                                question_verdict, d, score + d, k,
                                updated.streaks.get question_verdict⟩])
                          | _ => Except.error EvalError.typeError
                        else Except.ok rows) with
                      | .error e => .error e
                      | .ok rows2 =>
                          match delta with
                          | .num d =>
                              scoreLoop omr_response qws defaultKey should_explain rest
                                (score + d) rows2 (assocSet k updated schemes)
                          | _ => .error .typeError

/-- evaluate_concatenated_response from evaluation.py: validate, build the
question-to-scheme lookup and bind the default scheme if the default key
occurs, then score the answer key in declared order starting from 0.0.
The updated config carries the mutated scheme objects and explanation
rows. -/
def evaluate_concatenated_response (concatenated_response : List (String × String))
    (evaluation_config : EvaluationConfig) : Except EvalError (ℚ × EvaluationConfig) :=
  match validate_all evaluation_config concatenated_response with
  | .error e => .error e
  | .ok () =>
      let qws := buildQws evaluation_config.marking_scheme []
      let defaultKey :=
        if (assocGet DEFAULT_SECTION_KEY evaluation_config.marking_scheme).isSome then
          some DEFAULT_SECTION_KEY
        else none
      match scoreLoop concatenated_response qws defaultKey
          evaluation_config.should_explain_scoring
          (evaluation_config.questions_in_order.zip evaluation_config.answers_in_order)
          0 evaluation_config.explanation_table evaluation_config.marking_scheme with
      | .error e => .error e
      | .ok (score, rows, schemes) =>
          .ok (score,
            { evaluation_config with marking_scheme := schemes, explanation_table := rows })

/-! ## Basic lemmas about the set model -/

theorem memB_iff (x : String) (l : List String) : memB x l = true ↔ x ∈ l := by
  induction l with
  | nil => simp [memB]
  | cons y t ih => simp [memB, ih, List.mem_cons]

theorem subsetB_iff (a b : List String) : subsetB a b = true ↔ ∀ x ∈ a, x ∈ b := by
  simp [subsetB, List.all_eq_true, memB_iff]

theorem disjointB_iff (a b : List String) : disjointB a b = true ↔ ∀ x ∈ a, x ∉ b := by
  constructor
  · intro h x hxa hxb
    have hx := List.all_eq_true.mp h x hxa
    rw [(memB_iff x b).mpr hxb] at hx
    simp at hx
  · intro h
    refine List.all_eq_true.mpr fun x hx => ?_
    have : memB x b = false := by
      cases hmb : memB x b
      · rfl
      · exact absurd ((memB_iff x b).mp hmb) (h x hx)
    simp [this]

theorem setEqB_iff (a b : List String) : setEqB a b = true ↔ ∀ x, x ∈ a ↔ x ∈ b := by
  simp only [setEqB, Bool.and_eq_true, subsetB_iff]
  constructor
  · rintro ⟨h1, h2⟩ x
    exact ⟨fun hx => h1 x hx, fun hx => h2 x hx⟩
  · intro h
    exact ⟨fun x hx => (h x).mp hx, fun x hx => (h x).mpr hx⟩

/-- The relation between two sections stating that their question lists do
not intersect. -/
def SectionsDisjoint (a b : String × SectionMarkingScheme) : Prop :=
  ∀ q ∈ a.2.questions.getD [], q ∉ b.2.questions.getD []

/-- The invariant established by a successful run of the section fold of
validate_all: the output is the accumulated union, every non-default
section is disjoint from the incoming accumulator, and the non-default
sections are pairwise disjoint among themselves. -/
theorem sectionQuestionsFold_ok :
    ∀ (ms : List (String × SectionMarkingScheme)) (acc out : List String),
      sectionQuestionsFold ms acc = .ok out →
      (∀ q, q ∈ out ↔ q ∈ acc ∨
          ∃ p ∈ ms, p.1 ≠ DEFAULT_SECTION_KEY ∧ q ∈ p.2.questions.getD []) ∧
      (∀ p ∈ ms, p.1 ≠ DEFAULT_SECTION_KEY → ∀ q ∈ p.2.questions.getD [], q ∉ acc) ∧
      List.Pairwise SectionsDisjoint
        (ms.filter fun p => !(p.1 == DEFAULT_SECTION_KEY)) := by
  intro ms
  induction ms with
  | nil =>
      intro acc out h
      simp only [sectionQuestionsFold] at h
      cases h
      simp
  | cons hd rest ih =>
      intro acc out h
      obtain ⟨k, s⟩ := hd
      by_cases hk : k = DEFAULT_SECTION_KEY
      · subst hk
        simp only [sectionQuestionsFold, if_pos rfl] at h
        obtain ⟨h1, h2, h3⟩ := ih acc out h
        refine ⟨?_, ?_, ?_⟩
        · intro q
          rw [h1 q]
          constructor
          · rintro (hq | ⟨p, hp, hpd, hpq⟩)
            · exact Or.inl hq
            · exact Or.inr ⟨p, List.mem_cons_of_mem _ hp, hpd, hpq⟩
          · rintro (hq | ⟨p, hp, hpd, hpq⟩)
            · exact Or.inl hq
            · rcases List.mem_cons.mp hp with hph | hpt
              · exact absurd (congrArg Prod.fst hph) (by simpa using hpd)
              · exact Or.inr ⟨p, hpt, hpd, hpq⟩
        · intro p hp hpd q hq
          rcases List.mem_cons.mp hp with hph | hpt
          · exact absurd (congrArg Prod.fst hph) (by simpa using hpd)
          · exact h2 p hpt hpd q hq
        · simpa using h3
      · simp only [sectionQuestionsFold, if_neg hk] at h
        split at h
        next hqs => cases h
        next qs hqs =>
            split at h
            next hdis => cases h
            next hdis =>
              have hdis : disjointB acc qs = true := by
                revert hdis
                cases disjointB acc qs <;> simp
              obtain ⟨h1, h2, h3⟩ := ih (acc ++ qs) out h
              have hdis' := (disjointB_iff acc qs).mp hdis
              refine ⟨?_, ?_, ?_⟩
              · intro q
                rw [h1 q]
                constructor
                · rintro (hq | ⟨p, hp, hpd, hpq⟩)
                  · rcases List.mem_append.mp hq with hqa | hqq
                    · exact Or.inl hqa
                    · exact Or.inr ⟨(k, s), List.mem_cons_self _ _, hk, by simp [hqs, hqq]⟩
                  · exact Or.inr ⟨p, List.mem_cons_of_mem _ hp, hpd, hpq⟩
                · rintro (hq | ⟨p, hp, hpd, hpq⟩)
                  · exact Or.inl (List.mem_append.mpr (Or.inl hq))
                  · rcases List.mem_cons.mp hp with hph | hpt
                    · subst hph
                      simp only [hqs, Option.getD_some] at hpq
                      exact Or.inl (List.mem_append.mpr (Or.inr hpq))
                    · exact Or.inr ⟨p, hpt, hpd, hpq⟩
              · intro p hp hpd q hq
                rcases List.mem_cons.mp hp with hph | hpt
                · subst hph
                  simp only [hqs, Option.getD_some] at hq
                  intro hqacc
                  exact hdis' q hqacc hq
                · intro hqacc
                  exact h2 p hpt hpd q hq (List.mem_append.mpr (Or.inl hqacc))
              · have hfilter : ((k, s) :: rest).filter (fun p => !(p.1 == DEFAULT_SECTION_KEY)) =
                    (k, s) :: rest.filter (fun p => !(p.1 == DEFAULT_SECTION_KEY)) := by
                  simp [List.filter_cons, hk]
                rw [hfilter]
                refine List.Pairwise.cons ?_ h3
                intro p hp
                have hpt := List.mem_of_mem_filter hp
                have hpd : p.1 ≠ DEFAULT_SECTION_KEY := by
                  have := List.of_mem_filter hp
                  simpa using this
                intro q hqk hqp
                simp only [hqs, Option.getD_some] at hqk
                exact h2 p hpt hpd q hqp (List.mem_append.mpr (Or.inr hqk))

/-- Decomposition of a successful validate_all run into the facts its four
checks establish, in source order. -/
theorem validate_all_ok_parts (cfg : EvaluationConfig) (omr : List (String × String))
    (h : validate_all cfg omr = .ok ()) :
    cfg.questions_in_order.length = cfg.answers_in_order.length ∧
    ∃ sq, sectionQuestionsFold cfg.marking_scheme [] = .ok sq ∧
      setEqB cfg.questions_in_order sq = true ∧
      subsetB (omr.map Prod.fst) cfg.questions_in_order = false := by
  unfold validate_all at h
  split at h
  next hlen => cases h
  next hlen =>
    have hlen' : cfg.questions_in_order.length = cfg.answers_in_order.length := by
      exact not_ne_iff.mp hlen
    split at h
    next e hfold => cases h
    next sq hfold =>
      simp only [] at h
      split at h
      next hne =>
        split at h <;> cases h
      next hne =>
        have hsetEq : setEqB cfg.questions_in_order sq = true := by
          revert hne
          cases setEqB cfg.questions_in_order sq <;> simp
        split at h
        next hsub => cases h
        next hsub =>
          have hsub' : subsetB (omr.map Prod.fst) cfg.questions_in_order = false := by
            revert hsub
            cases subsetB (omr.map Prod.fst) cfg.questions_in_order <;> simp
          exact ⟨hlen', sq, hfold, hsetEq, hsub'⟩

/-! ## Claim theorems -/

/-- Claim C5: validate_all enforces, before any scoring, that the
non-default sections of the marking scheme have pairwise disjoint
question sets and that the union of those sets is exactly the answer-key
question set; on every configuration and response for which validate_all
succeeds, both the disjointness and the exact coverage hold. -/
theorem c5_validate_all_enforces_partition (cfg : EvaluationConfig)
    (omr : List (String × String)) (h : validate_all cfg omr = .ok ()) :
    List.Pairwise SectionsDisjoint
      (cfg.marking_scheme.filter fun p => !(p.1 == DEFAULT_SECTION_KEY)) ∧
    ∀ q, q ∈ cfg.questions_in_order ↔
      ∃ p ∈ cfg.marking_scheme, p.1 ≠ DEFAULT_SECTION_KEY ∧ q ∈ p.2.questions.getD [] := by
  obtain ⟨-, sq, hfold, hsetEq, -⟩ := validate_all_ok_parts cfg omr h
  obtain ⟨h1, -, h3⟩ := sectionQuestionsFold_ok cfg.marking_scheme [] sq hfold
  refine ⟨h3, fun q => ?_⟩
  rw [(setEqB_iff _ _).mp hsetEq q, h1 q]
  simp

/-- A configuration on which validate_all succeeds: one explicit section
covering exactly the answer key. -/
def c5cfg : EvaluationConfig :=
  ⟨false, ["q1"], ["A"],
   [("s1", ⟨"", "s1", ⟨0, 0, 0⟩, some ["q1"], ⟨.num 1, .num 0, .num 0⟩⟩)], []⟩

/-- A response whose key set is a strict superset of the answer key, which
the response check of validate_all lets through. -/
def c5resp : List (String × String) := [("q1", "A"), ("extra", "B")]

/-- Witness for claim C5, instantiating the theorem on a concrete
configuration that validates successfully. -/
theorem c5_validate_all_enforces_partition_witness :
    List.Pairwise SectionsDisjoint
      (c5cfg.marking_scheme.filter fun p => !(p.1 == DEFAULT_SECTION_KEY)) ∧
    ("q1" ∈ c5cfg.questions_in_order ↔
      ∃ p ∈ c5cfg.marking_scheme, p.1 ≠ DEFAULT_SECTION_KEY ∧ "q1" ∈ p.2.questions.getD []) :=
  ⟨(c5_validate_all_enforces_partition c5cfg c5resp rfl).1,
   (c5_validate_all_enforces_partition c5cfg c5resp rfl).2 "q1"⟩

/-- Claim C1 (code bug record): on a configuration whose answer key is
exactly covered and a response whose question set is exactly the
answer-key set, validate_all raises the missing-response error, although
the claim (and the intent recorded by the error message, which in this
run reports an empty list of missing questions) says an exact match must
pass.  The source tests answer_key_questions.issuperset(response), which
is satisfied by equality, instead of a strict-superset / missing test.
A strict-superset response passes (as the claim says), but so does a
response that is missing an answer-key question while holding an extra
key — the case the claim says must raise; scoring then dies on a
KeyError instead of failing validation. -/
theorem c1_validate_all_rejects_exact_match_response :
    ((EvaluationConfig.init ["q1"] ["A"]
        [("s1", .explicit ["q1"] ⟨.num 1, .num 0, .num 0⟩)] "" false).map
      (fun p => validate_all p.1 [("q1", "A")]))
    = .ok (.error .missingResponse) ∧
    ((EvaluationConfig.init ["q1"] ["A"]
        [("s1", .explicit ["q1"] ⟨.num 1, .num 0, .num 0⟩)] "" false).map
      (fun p => validate_all p.1 [("q1", "A"), ("q3", "B")]))
    = .ok (.ok ()) ∧
    ((EvaluationConfig.init ["q1"] ["A"]
        [("s1", .explicit ["q1"] ⟨.num 1, .num 0, .num 0⟩)] "" false).map
      (fun p => validate_all p.1 [("q3", "B")]))
    = .ok (.ok ()) := ⟨rfl, rfl, rfl⟩

/-- Claim C2 (counterexample): on the exact configuration of the claim —
answer key [(q1, A), (q2, B)], a single default catch-all section with
marking correct 1, incorrect -1/4, unmarked 0 — and the response
q1 = A, q2 = C, evaluate_concatenated_response does not return 3/4: its
validate_all call fails, because the union of non-default section
questions (empty here) must equal the answer-key set. -/
theorem c2_default_only_scheme_is_rejected :
    ((EvaluationConfig.init ["q1", "q2"] ["A", "B"]
        [(DEFAULT_SECTION_KEY, .default ⟨.num 1, .num (-1/4), .num 0⟩)] "" false).bind
      (fun p => evaluate_concatenated_response [("q1", "A"), ("q2", "C")] p.1)).map Prod.fst
    = .error .missingMarkingScheme := rfl

/-- Claim C2 (amended): the same answer key, marking and response score
0.75 once the marking is carried by an explicit section covering q1 and
q2 (a default section must still be present for the scoring loop to bind
its fallback name) and the response is extended by one extra key (the
response check of validate_all rejects an exact match, see C1). -/
theorem c2_explicit_section_scores_three_quarters :
    ((EvaluationConfig.init ["q1", "q2"] ["A", "B"]
        [(DEFAULT_SECTION_KEY, .default ⟨.num 0, .num 0, .num 0⟩),
         ("s1", .explicit ["q1", "q2"] ⟨.num 1, .num (-1/4), .num 0⟩)] "" false).bind
      (fun p => evaluate_concatenated_response [("q1", "A"), ("q2", "C"), ("q3", "X")] p.1)).map
        Prod.fst
    = .ok (3/4) := by
  have h :
      ((EvaluationConfig.init ["q1", "q2"] ["A", "B"]
          [(DEFAULT_SECTION_KEY, .default ⟨.num 0, .num 0, .num 0⟩),
           ("s1", .explicit ["q1", "q2"] ⟨.num 1, .num (-1/4), .num 0⟩)] "" false).bind
        (fun p => evaluate_concatenated_response [("q1", "A"), ("q2", "C"), ("q3", "X")] p.1)).map
          Prod.fst
      = .ok ((0 : ℚ) + 1 + (-1/4)) := rfl
  rw [h]
  norm_num

/-- Claim C3 (code bug record): a raw schedule list is stored as the lazy
map object map(parse_float_or_fraction, xs), which the runtime type test
in match_answer does not recognise as a list; match_answer therefore
returns the map object itself as the delta for an incorrect answer, and
the scoring loop fails with a TypeError when folding it into the score —
instead of producing the schedule deltas 0, -1, -2 the claim expects. -/
theorem c3_schedule_is_dead_map_object :
    ((SectionMarkingScheme.init "s1"
        (.explicit ["q1", "q2", "q3"]
          ⟨.num 1, .list [.num 0, .num (-1), .num (-2)], .num 0⟩) "").toOption.map
      (fun p => (match_answer p.1 "B" "A").1))
    = some (.mapObj [.num 0, .num (-1), .num (-2)]) ∧
    ((EvaluationConfig.init ["q1", "q2", "q3"] ["A", "A", "A"]
        [(DEFAULT_SECTION_KEY, .default ⟨.num 0, .num 0, .num 0⟩),
         ("s1", .explicit ["q1", "q2", "q3"]
            ⟨.num 1, .list [.num 0, .num (-1), .num (-2)], .num 0⟩)] "" false).bind
      (fun p => evaluate_concatenated_response
        [("q1", "B"), ("q2", "B"), ("q3", "B"), ("zz", "x")] p.1)).map Prod.fst
    = .error .typeError := ⟨rfl, rfl⟩

/-- Claim C4 (code bug record): parse_questions accepts overlapping
tokens.  The overlap accumulator questions_set is never extended inside
the loop, so the disjointness check compares against the empty set every
time, the QuestionOverlapError raise is unreachable, and overlapping
expansions — here q1...3 and q2, and even a literally repeated token —
are returned, duplicates included. -/
theorem c4_parse_questions_never_detects_overlap :
    parse_questions "sec" ["q1...3", "q2"] = .ok ["q1", "q2", "q3", "q2"] ∧
    parse_questions "sec" ["q1", "q1"] = .ok ["q1", "q1"] := ⟨rfl, rfl⟩

/-- The delta computed from a marking value and a streak count read
before the current question: the schedule lookup clamped to the last
entry for a genuine list, the value itself otherwise. -/
def scheduleDelta (marking : PyMark) (current_streak : ℕ) : PyMark :=
  match marking with
  | .pylist xs => .num (xs.getD (min current_streak (xs.length - 1)) 0)
  | m => m

/-- Claim C6: match_answer peeks before it commits.  The returned delta
is a function of the streak counter of the resolved verdict as it stood
before the current question (a run length of zero included), and the
streak state returned is: peeked count plus one for the matched verdict,
zero for the two others. -/
theorem c6_match_answer_peeks_before_commit (s : SectionMarkingScheme)
    (marked_answer correct_answer : String) :
    ((match_answer s marked_answer correct_answer).1 =
      scheduleDelta
        (s.marking.get ((match_answer s marked_answer correct_answer).2.1))
        (s.streaks.get ((match_answer s marked_answer correct_answer).2.1))) ∧
    ∀ w, ((match_answer s marked_answer correct_answer).2.2.streaks.get w) =
      if w = (match_answer s marked_answer correct_answer).2.1 then
        s.streaks.get ((match_answer s marked_answer correct_answer).2.1) + 1
      else 0 := by
  constructor
  · rfl
  · intro w
    cases hv : get_question_verdict s.empty_val marked_answer correct_answer <;>
      cases w <;>
        simp [match_answer, update_streaks_for_verdict, Streaks.get, hv]

/-- Claim C10: when the marking scheme has no default section, the
scoring loop fails with the name-binding error on the first question even
though validation succeeded — so every answer-key question is explicitly
covered by a non-default section — because the fallback argument
default_marking_scheme of the question-to-scheme lookup is evaluated
unconditionally for every question.  The response is assumed to contain
the first question (otherwise its KeyError fires first, at the same
point in the loop). -/
theorem c10_missing_default_section_name_error (cfg : EvaluationConfig)
    (resp : List (String × String)) (q : String) (rest : List String)
    (hnodef : assocGet DEFAULT_SECTION_KEY cfg.marking_scheme = none)
    (hval : validate_all cfg resp = .ok ())
    (hq : cfg.questions_in_order = q :: rest)
    (hr : (assocGet q resp).isSome = true) :
    evaluate_concatenated_response resp cfg = .error .nameError := by
  obtain ⟨hlen, -⟩ := validate_all_ok_parts cfg resp hval
  obtain ⟨m, hm⟩ := Option.isSome_iff_exists.mp hr
  cases haio : cfg.answers_in_order with
  | nil => rw [hq, haio] at hlen; cases hlen
  | cons a atl =>
      unfold evaluate_concatenated_response
      rw [hval]
      simp only [hnodef, Option.isSome_none, Bool.false_eq_true, if_false, hq, haio]
      have hzip : (q :: rest).zip (a :: atl) = (q, a) :: rest.zip atl := rfl
      rw [hzip]
      unfold scoreLoop
      rw [hm]

/-- A configuration with a single explicit section covering the whole
answer key and no default section. -/
def c10cfg : EvaluationConfig :=
  ⟨false, ["q1"], ["A"],
   [("s1", ⟨"", "s1", ⟨0, 0, 0⟩, some ["q1"], ⟨.num 1, .num 0, .num 0⟩⟩)], []⟩

/-- A response strictly larger than the answer key, so validate_all
passes. -/
def c10resp : List (String × String) := [("q1", "A"), ("zz", "x")]

/-- Witness for claim C10 on a concrete fully-covered configuration. -/
theorem c10_missing_default_section_name_error_witness :
    evaluate_concatenated_response c10resp c10cfg = .error .nameError :=
  c10_missing_default_section_name_error c10cfg c10resp "q1" [] rfl rfl rfl rfl

/-! ## Frame properties of evaluation (claim C7) -/

/-- A section scheme with its streak counters blanked; two schemes with
the same image differ at most in their streak state. -/
def eraseStreaks (s : SectionMarkingScheme) : SectionMarkingScheme :=
  { s with streaks := ⟨0, 0, 0⟩ }

theorem eraseStreaks_match_answer (s : SectionMarkingScheme) (m a : String) :
    eraseStreaks (match_answer s m a).2.2 = eraseStreaks s := rfl

/-- Writing back a scheme that differs only in streaks leaves the
streak-erased view of the scheme dict unchanged. -/
theorem assocSet_eraseStreaks_frame (k : String) (s' : SectionMarkingScheme)
    (schemes : List (String × SectionMarkingScheme)) (s : SectionMarkingScheme)
    (hget : assocGet k schemes = some s) (hes : eraseStreaks s' = eraseStreaks s) :
    (assocSet k s' schemes).map (fun p => (p.1, eraseStreaks p.2)) =
      schemes.map (fun p => (p.1, eraseStreaks p.2)) := by
  induction schemes with
  | nil => simp [assocGet] at hget
  | cons hd t ih =>
      obtain ⟨k', v⟩ := hd
      simp only [assocGet] at hget
      by_cases hk : k = k'
      · rw [if_pos hk] at hget
        have hv : v = s := by cases hget; rfl
        subst hv
        subst hk
        simp [assocSet, hes]
      · rw [if_neg hk] at hget
        have hk' : ¬ k' = k := fun hcontra => hk hcontra.symm
        simp [assocSet, hk', ih hget]

/-- Frame invariant of the scoring loop: on success, the streak-erased
scheme dict is unchanged, explanation rows are only appended, and without
explanation mode the rows are untouched. -/
theorem scoreLoop_frame (resp qws : List (String × String)) (dk : Option String) (se : Bool) :
    ∀ (qa : List (String × String)) (score : ℚ) (rows : List ExplRow)
      (schemes : List (String × SectionMarkingScheme))
      (out : ℚ × List ExplRow × List (String × SectionMarkingScheme)),
      scoreLoop resp qws dk se qa score rows schemes = .ok out →
      out.2.2.map (fun p => (p.1, eraseStreaks p.2)) =
        schemes.map (fun p => (p.1, eraseStreaks p.2)) ∧
      (∃ extra, out.2.1 = rows ++ extra) ∧
      (se = false → out.2.1 = rows) := by
  intro qa
  induction qa with
  | nil =>
      intro score rows schemes out h
      simp only [scoreLoop] at h
      cases h
      exact ⟨rfl, ⟨[], by simp⟩, fun _ => rfl⟩
  | cons hd tl ih =>
      intro score rows schemes out h
      obtain ⟨q, ans⟩ := hd
      unfold scoreLoop at h
      split at h
      next => cases h
      next marked hmk =>
        cases dk with
        | none => simp at h
        | some dkk =>
            simp only [] at h
            split at h
            next hsch => cases h
            next scheme hsch =>
              rcases hma : match_answer scheme marked ans with ⟨delta, verdict, updated⟩
              rw [hma] at h
              simp only [] at h
              have hes : eraseStreaks updated = eraseStreaks scheme := by
                have hh := eraseStreaks_match_answer scheme marked ans
                rw [hma] at hh
                exact hh
              cases delta with
              | num d =>
                  cases se with
                  | false =>
                      simp only [Bool.false_eq_true, if_false] at h
                      obtain ⟨ihmap, ⟨extra, ihrows⟩, ihse⟩ := ih _ _ _ _ h
                      refine ⟨?_, ⟨extra, ihrows⟩, fun _ => ihse rfl⟩
                      rw [ihmap]
                      exact assocSet_eraseStreaks_frame _ updated schemes scheme hsch hes
                  | true =>
                      simp only [if_true] at h
                      obtain ⟨ihmap, ⟨extra, ihrows⟩, -⟩ := ih _ _ _ _ h
                      refine ⟨?_, ?_, ?_⟩
                      · rw [ihmap]
                        exact assocSet_eraseStreaks_frame _ updated schemes scheme hsch hes
                      · exact ⟨_ :: extra, by rw [ihrows, List.append_assoc]; rfl⟩
                      · intro hse
                        cases hse
              | pylist xs => cases se <;> simp at h
              | mapObj xs => cases se <;> simp at h

/-- Claim C7 amended, part records: the two-pass persistence
demonstration.  One answer key question, scored correct in both passes by
section s1: the correct-streak of s1 is 1 after the first pass and 2
after the second, because the second pass starts from the counters the
first pass left behind (a reset would give 1 again). -/
def c7demoChain : Except EvalError (Option Streaks × Option Streaks) :=
  (EvaluationConfig.init ["q1"] ["A"]
      [(DEFAULT_SECTION_KEY, .default ⟨.num 0, .num 0, .num 0⟩),
       ("s1", .explicit ["q1"] ⟨.num 1, .num (-1), .num 0⟩)] "" false).bind
    (fun p => (evaluate_concatenated_response [("q1", "A"), ("zz", "x")] p.1).bind
      (fun r1 => (evaluate_concatenated_response [("q1", "A"), ("zz", "x")] r1.2).map
        (fun r2 => ((assocGet "s1" r1.2.marking_scheme).map SectionMarkingScheme.streaks,
                    (assocGet "s1" r2.2.marking_scheme).map SectionMarkingScheme.streaks))))

/-- Claim C7, amended: a successful evaluation pass leaves the answer
key, the explanation toggle and the streak-erased marking schemes of the
configuration unchanged — the mutable state is the per-section streak
counters and, when explanation mode is on, the append-only explanation
table (when it is off, the table is untouched).  And the streak counters
are not reset between passes: in the concrete two-pass run, the second
pass continues from the counters the first pass produced. -/
theorem c7_evaluation_frame_and_streak_persistence :
    (∀ (cfg : EvaluationConfig) (resp : List (String × String)) (score : ℚ)
        (cfg' : EvaluationConfig),
      evaluate_concatenated_response resp cfg = .ok (score, cfg') →
      cfg'.should_explain_scoring = cfg.should_explain_scoring ∧
      cfg'.questions_in_order = cfg.questions_in_order ∧
      cfg'.answers_in_order = cfg.answers_in_order ∧
      cfg'.marking_scheme.map (fun p => (p.1, eraseStreaks p.2)) =
        cfg.marking_scheme.map (fun p => (p.1, eraseStreaks p.2)) ∧
      (∃ extra, cfg'.explanation_table = cfg.explanation_table ++ extra) ∧
      (cfg.should_explain_scoring = false →
        cfg'.explanation_table = cfg.explanation_table)) ∧
    c7demoChain = .ok (some ⟨1, 0, 0⟩, some ⟨2, 0, 0⟩) := by
  constructor
  · intro cfg resp score cfg' h
    unfold evaluate_concatenated_response at h
    split at h
    next => cases h
    next hval =>
      simp only [] at h
      split at h
      next => cases h
      next s rows schemes hloop =>
        obtain ⟨hmap, hrows, hse⟩ := scoreLoop_frame _ _ _ _ _ _ _ _ _ hloop
        cases h
        exact ⟨rfl, rfl, rfl, hmap, hrows, hse⟩
  · rfl

/-- A trivially valid configuration with an empty answer key, on which
evaluation succeeds immediately; used to witness the frame theorem. -/
def c7cfgEmpty : EvaluationConfig := ⟨false, [], [], [], []⟩

/-- Witness for claim C7, applying the frame theorem to a concrete
successful evaluation. -/
theorem c7_evaluation_frame_and_streak_persistence_witness :
    ∃ extra, c7cfgEmpty.explanation_table = c7cfgEmpty.explanation_table ++ extra :=
  ((c7_evaluation_frame_and_streak_persistence.1 c7cfgEmpty [("x", "y")] 0 c7cfgEmpty
    rfl).2.2.2.2).1

/-- Claim C7 (counterexample to the claim as stated): with explanation
mode enabled, a successful evaluation also mutates the explanation table
of the configuration — state that is not a per-section streak counter:
the table has 0 rows before the pass and 1 row after it. -/
theorem c7_explanation_table_also_mutated :
    ((EvaluationConfig.init ["q1"] ["A"]
        [(DEFAULT_SECTION_KEY, .default ⟨.num 0, .num 0, .num 0⟩),
         ("s1", .explicit ["q1"] ⟨.num 1, .num (-1), .num 0⟩)] "" true).bind
      (fun p => (evaluate_concatenated_response [("q1", "A"), ("zz", "x")] p.1).map
        (fun r => (p.1.explanation_table.length, r.2.explanation_table.length))))
    = .ok (0, 1) := rfl

/-! ## Range-token parsing (claim C8) -/

theorem takeWhile_append_exact (p : Char → Bool) (xs ys : List Char)
    (h1 : ∀ x ∈ xs, p x = true) (h2 : ∀ y, ys.head? = some y → p y = false) :
    (xs ++ ys).takeWhile p = xs ∧ (xs ++ ys).dropWhile p = ys := by
  induction xs with
  | nil =>
      simp only [List.nil_append]
      cases ys with
      | nil => simp
      | cons y t =>
          have hy := h2 y rfl
          simp [List.takeWhile_cons, List.dropWhile_cons, hy]
  | cons x xs ih =>
      have hx := h1 x (List.mem_cons_self x xs)
      have ih' := ih fun c hc => h1 c (List.mem_cons_of_mem _ hc)
      simp [List.takeWhile_cons, List.dropWhile_cons, hx, ih'.1, ih'.2]

theorem digit_not_dot {c : Char} (hc : c.isDigit = true) : (c == '.') = false := by
  cases hbe : c == '.' with
  | false => rfl
  | true =>
      have hcd : c = '.' := eq_of_beq hbe
      rw [hcd] at hc
      cases hc

/-- The regex matches a canonical range token at its start, producing
exactly the three groups the token was built from. -/
theorem regexMatchAt_canonical (pre d1 d2 : List Char) (k : ℕ)
    (hpre : pre ≠ []) (hpreA : ∀ c ∈ pre, isQuestionPrefixChar c = true)
    (hd1 : d1 ≠ []) (hd1D : ∀ c ∈ d1, c.isDigit = true)
    (hd2 : d2 ≠ []) (hd2D : ∀ c ∈ d2, c.isDigit = true)
    (hk : k = 2 ∨ k = 3) :
    regexMatchAt (pre ++ d1 ++ List.replicate k '.' ++ d2) = some (pre, d1, d2) := by
  have hassoc : pre ++ d1 ++ List.replicate k '.' ++ d2 =
      pre ++ (d1 ++ (List.replicate k '.' ++ d2)) := by
    simp [List.append_assoc]
  have hrep_ne : List.replicate k '.' ≠ [] := by
    rcases hk with rfl | rfl <;> simp
  have hspan1 := takeWhile_append_exact isQuestionPrefixChar pre
      (d1 ++ (List.replicate k '.' ++ d2)) hpreA ?hd1head
  case hd1head =>
    intro y hy
    cases d1 with
    | nil => exact absurd rfl hd1
    | cons c t =>
        simp only [List.cons_append, List.head?_cons, Option.some.injEq] at hy
        subst hy
        have := hd1D c (List.mem_cons_self c t)
        simp [isQuestionPrefixChar, this]
  have hspan2 := takeWhile_append_exact Char.isDigit d1
      (List.replicate k '.' ++ d2) hd1D ?hdothead
  case hdothead =>
    intro y hy
    cases hrep : List.replicate k '.' with
    | nil => exact absurd hrep hrep_ne
    | cons c t =>
        have hc : c = '.' := by
          have : c ∈ List.replicate k '.' := by rw [hrep]; exact List.mem_cons_self c t
          exact (List.eq_of_mem_replicate this)
        rw [hrep] at hy
        simp only [List.cons_append, List.head?_cons, Option.some.injEq] at hy
        subst hy
        rw [hc]
        decide
  have hspan3 := takeWhile_append_exact (fun c => c == '.') (List.replicate k '.') d2
      (fun c hc => by rw [List.eq_of_mem_replicate hc]; decide) ?hd2head
  case hd2head =>
    intro y hy
    cases d2 with
    | nil => exact absurd rfl hd2
    | cons c t =>
        simp only [List.head?_cons, Option.some.injEq] at hy
        subst hy
        exact digit_not_dot (hd2D c (List.mem_cons_self c t))
  have hspan4 : d2.takeWhile Char.isDigit = d2 := by
    have h4 := takeWhile_append_exact Char.isDigit d2 [] hd2D (by intro y hy; cases hy)
    simpa using h4.1
  have hpreE : pre.isEmpty = false := by
    cases pre with
    | nil => exact absurd rfl hpre
    | cons c t => rfl
  have hd1E : d1.isEmpty = false := by
    cases d1 with
    | nil => exact absurd rfl hd1
    | cons c t => rfl
  have hd2E : d2.isEmpty = false := by
    cases d2 with
    | nil => exact absurd rfl hd2
    | cons c t => rfl
  have hlen : (List.replicate k '.').length = k := List.length_replicate k '.'
  have hkrange : ¬(k < 2 ∨ k > 3) := by
    rcases hk with rfl | rfl <;> simp
  rw [hassoc]
  unfold regexMatchAt
  rw [hspan1.1, hspan1.2]
  simp only [hpreE, Bool.false_eq_true, if_false]
  rw [hspan2.1, hspan2.2]
  simp only [hd1E, Bool.false_eq_true, if_false]
  rw [hspan3.1, hspan3.2]
  rw [hlen]
  rw [if_neg hkrange]
  rw [hspan4]
  simp [hd2E]

/-- findall finds the canonical range token immediately: the match at
position zero succeeds. -/
theorem regexFindFirst_canonical (pre d1 d2 : List Char) (k : ℕ)
    (hpre : pre ≠ []) (hpreA : ∀ c ∈ pre, isQuestionPrefixChar c = true)
    (hd1 : d1 ≠ []) (hd1D : ∀ c ∈ d1, c.isDigit = true)
    (hd2 : d2 ≠ []) (hd2D : ∀ c ∈ d2, c.isDigit = true)
    (hk : k = 2 ∨ k = 3) :
    regexFindFirst (pre ++ d1 ++ List.replicate k '.' ++ d2) = some (pre, d1, d2) := by
  have hmatch := regexMatchAt_canonical pre d1 d2 k hpre hpreA hd1 hd1D hd2 hd2D hk
  cases pre with
  | nil => exact absurd rfl hpre
  | cons c pt =>
      have hl : (c :: pt) ++ d1 ++ List.replicate k '.' ++ d2 =
          c :: (pt ++ d1 ++ List.replicate k '.' ++ d2) := by simp
      rw [hl] at hmatch ⊢
      unfold regexFindFirst
      rw [hmatch]

/-- Claim C8: parse_question_string expands the range token Q1...5 to
exactly Q1, Q2, Q3, Q4, Q5; and every canonical range token whose start
is greater than or equal to its end — a nonempty prefix of non-dot
non-digit characters, a digit run, two or three dots, a digit run — is
rejected with the range-definition error rather than parsed to a list. -/
theorem c8_parse_question_string_range :
    parse_question_string "Q1...5" = .ok ["Q1", "Q2", "Q3", "Q4", "Q5"] ∧
    ∀ (pre d1 d2 : List Char) (k : ℕ),
      pre ≠ [] → (∀ c ∈ pre, isQuestionPrefixChar c = true) →
      d1 ≠ [] → (∀ c ∈ d1, c.isDigit = true) →
      d2 ≠ [] → (∀ c ∈ d2, c.isDigit = true) →
      (k = 2 ∨ k = 3) →
      natOfDigits d1 ≥ natOfDigits d2 →
      parse_question_string (String.mk (pre ++ d1 ++ List.replicate k '.' ++ d2)) =
        .error (.rangeDefinition (String.mk (pre ++ d1 ++ List.replicate k '.' ++ d2))) := by
  refine ⟨rfl, ?_⟩
  intro pre d1 d2 k hpre hpreA hd1 hd1D hd2 hd2D hk hge
  have hfind := regexFindFirst_canonical pre d1 d2 k hpre hpreA hd1 hd1D hd2 hd2D hk
  have hkne : k ≠ 0 := by rcases hk with rfl | rfl <;> simp
  have hdot : (pre ++ d1 ++ List.replicate k '.' ++ d2).any (fun c => c == '.') = true := by
    refine List.any_eq_true.mpr ⟨'.', ?_, by simp⟩
    simp only [List.mem_append]
    exact Or.inl (Or.inr (List.mem_replicate.mpr ⟨hkne, rfl⟩))
  have htl : (String.mk (pre ++ d1 ++ List.replicate k '.' ++ d2)).toList =
      pre ++ d1 ++ List.replicate k '.' ++ d2 := rfl
  unfold parse_question_string
  simp only [htl, hdot, if_true, hfind]
  rw [if_pos hge]

/-- Witness for claim C8, instantiating the universal half at Q5...1. -/
theorem c8_parse_question_string_range_witness :
    parse_question_string "Q5...1" = .error (.rangeDefinition "Q5...1") :=
  c8_parse_question_string_range.2 ['Q'] ['5'] ['1'] 3
    (by decide) (by decide) (by decide) (by decide) (by decide) (by decide)
    (Or.inr rfl) (by decide)

/-! ## Warning behaviour of rule parsing (claim C9) -/

/-- The error of one verdict entry does not depend on the section key. -/
theorem parseOneMark_error_key (k1 k2 : String) (v : Verdict) (raw : RawMark)
    (e : EvalError) (h : parseOneMark k1 v raw = .error e) :
    parseOneMark k2 v raw = .error e := by
  cases raw with
  | num x => exact absurd h (by simp [parseOneMark])
  | list xs => exact absurd h (by simp [parseOneMark])
  | str s =>
      simp only [parseOneMark] at h ⊢
      cases hp : parse_float_or_fraction s with
      | error e0 =>
          simp only [hp] at h ⊢
          exact h
      | ok x =>
          simp only [hp] at h
          split at h <;> cases h

/-- A successful verdict entry stays successful, with the same parsed
value, under any section key; only the warning list may change. -/
theorem parseOneMark_ok_key (k1 k2 : String) (v : Verdict) (raw : RawMark)
    (pm : PyMark) (ws : List LogWarning) (h : parseOneMark k1 v raw = .ok (pm, ws)) :
    ∃ ws', parseOneMark k2 v raw = .ok (pm, ws') := by
  cases raw with
  | num x =>
      simp only [parseOneMark] at h
      cases h
      exact ⟨[], rfl⟩
  | list xs =>
      simp only [parseOneMark] at h
      cases h
      exact ⟨[], rfl⟩
  | str s =>
      simp only [parseOneMark] at h ⊢
      cases hp : parse_float_or_fraction s with
      | error e0 => simp only [hp] at h; cases h
      | ok x =>
          simp only [hp] at h ⊢
          split at h <;> cases h <;> split <;> exact ⟨_, rfl⟩

/-- Characterisation of the warnings of one verdict entry: a warning is
recorded exactly when the verdict is incorrect, the raw value is a string
parsing to a strictly positive number, and the key lacks the bonus
marker. -/
theorem parseOneMark_warning_iff (key : String) (v : Verdict) (raw : RawMark)
    (pm : PyMark) (ws : List LogWarning) (h : parseOneMark key v raw = .ok (pm, ws)) :
    ∀ w, w ∈ ws ↔ (v = .incorrect ∧ ∃ s x, raw = .str s ∧
      parse_float_or_fraction s = .ok x ∧ x > 0 ∧
      key.startsWith BONUS_SECTION_PREFIX = false ∧
      w = .positiveIncorrectMarks key x) := by
  intro w
  cases raw with
  | num x =>
      simp only [parseOneMark] at h
      cases h
      simp
  | list xs =>
      simp only [parseOneMark] at h
      cases h
      simp
  | str s =>
      simp only [parseOneMark] at h
      cases hp : parse_float_or_fraction s with
      | error e0 => simp only [hp] at h; cases h
      | ok x =>
          simp only [hp] at h
          split at h
          next hcond =>
            obtain ⟨hx, hv, hkey⟩ := hcond
            cases h
            subst hv
            constructor
            · intro hw
              rw [List.mem_singleton] at hw
              subst hw
              exact ⟨rfl, s, x, rfl, hp, hx, hkey, rfl⟩
            · rintro ⟨-, s', x', hss, hpx, -, -, hw⟩
              injection hss with hs
              subst hs
              rw [hp] at hpx
              injection hpx with hx'
              subst hx'
              rw [hw]
              exact List.mem_singleton.mpr rfl
          next hcond =>
            cases h
            constructor
            · intro hw
              cases hw
            · rintro ⟨hv, s', x', hss, hpx, hx, hkey, hw⟩
              injection hss with hs
              subst hs
              rw [hp] at hpx
              injection hpx with hx'
              subst hx'
              exact absurd ⟨hx, hv, hkey⟩ hcond

/-- Claim C9, amended: a rule-parsing warning is emitted precisely for an
incorrect-verdict value supplied as a string literal that parses to a
strictly positive number in a section without the bonus marker — a
strictly positive plain numeric literal is accepted silently — and the
warning is non-fatal: whether rule parsing fails does not depend on the
section key at all, so the warning condition can never cause a failure;
warnings of this one kind are the only non-fatal case. -/
theorem c9_positive_incorrect_warning_for_string_literals :
    (∀ (key : String) (raw : RawMarking) (m : Marking) (ws : List LogWarning),
      parse_scheme_marking key raw = .ok (m, ws) →
      ∀ w, w ∈ ws ↔ ∃ s x, raw.incorrect = .str s ∧
        parse_float_or_fraction s = .ok x ∧ x > 0 ∧
        key.startsWith BONUS_SECTION_PREFIX = false ∧
        w = .positiveIncorrectMarks key x) ∧
    (∀ (k1 k2 : String) (raw : RawMarking) (e : EvalError),
      parse_scheme_marking k1 raw = .error e → parse_scheme_marking k2 raw = .error e) := by
  constructor
  · intro key raw m ws h w
    unfold parse_scheme_marking at h
    split at h
    next => cases h
    next c w1 hc =>
      split at h
      next => cases h
      next i w2 hi =>
        split at h
        next => cases h
        next u w3 hu =>
          cases h
          have h1 := parseOneMark_warning_iff key .correct raw.correct c w1 hc w
          have h2 := parseOneMark_warning_iff key .incorrect raw.incorrect i w2 hi w
          have h3 := parseOneMark_warning_iff key .unmarked raw.unmarked u w3 hu w
          simp only [List.mem_append, h1, h2, h3]
          simp
  · intro k1 k2 raw e h
    unfold parse_scheme_marking at h ⊢
    cases hc1 : parseOneMark k1 .correct raw.correct with
    | error e0 =>
        simp only [hc1] at h
        simp only [parseOneMark_error_key k1 k2 .correct raw.correct e0 hc1]
        exact h
    | ok p =>
        obtain ⟨c, w1⟩ := p
        simp only [hc1] at h
        obtain ⟨w1', hok1⟩ := parseOneMark_ok_key k1 k2 .correct raw.correct c w1 hc1
        simp only [hok1]
        cases hi1 : parseOneMark k1 .incorrect raw.incorrect with
        | error e0 =>
            simp only [hi1] at h
            simp only [parseOneMark_error_key k1 k2 .incorrect raw.incorrect e0 hi1]
            exact h
        | ok p =>
            obtain ⟨i, w2⟩ := p
            simp only [hi1] at h
            obtain ⟨w2', hok2⟩ := parseOneMark_ok_key k1 k2 .incorrect raw.incorrect i w2 hi1
            simp only [hok2]
            cases hu1 : parseOneMark k1 .unmarked raw.unmarked with
            | error e0 =>
                simp only [hu1] at h
                simp only [parseOneMark_error_key k1 k2 .unmarked raw.unmarked e0 hu1]
                exact h
            | ok p =>
                obtain ⟨u, w3⟩ := p
                simp only [hu1] at h
                cases h

/-- Claim C9 (counterexample to the claim as stated): the incorrect
verdict of a non-bonus section carries the strictly positive plain
numeric literal 1, yet rule parsing emits no warning — the warning check
sits inside the string branch of parse_scheme_marking only. -/
theorem c9_numeric_positive_incorrect_warns_nothing :
    parse_scheme_marking "s1" ⟨.num 1, .num 1, .num 0⟩ =
      .ok (⟨.num 1, .num 1, .num 0⟩, []) := rfl

/-- Witness for claim C9, applying the warning characterisation to a
section whose incorrect value is the positive string literal 2. -/
theorem c9_positive_incorrect_warning_for_string_literals_witness :
    LogWarning.positiveIncorrectMarks "s1" ((2 : ℕ) : ℚ) ∈
      [LogWarning.positiveIncorrectMarks "s1" ((2 : ℕ) : ℚ)] := by
  have hok : parse_scheme_marking "s1" ⟨.str "1", .str "2", .str "0"⟩ =
      .ok (⟨.num ((1 : ℕ) : ℚ), .num ((2 : ℕ) : ℚ), .num ((0 : ℕ) : ℚ)⟩,
        [.positiveIncorrectMarks "s1" ((2 : ℕ) : ℚ)]) := rfl
  exact (c9_positive_incorrect_warning_for_string_literals.1 "s1"
      ⟨.str "1", .str "2", .str "0"⟩ _ _ hok
      (.positiveIncorrectMarks "s1" ((2 : ℕ) : ℚ))).mpr
    ⟨"2", ((2 : ℕ) : ℚ), rfl, rfl, by decide, rfl, rfl⟩

end OMRChecker
